import Mathlib

/-!
Verification of the CommDy individual-metrics engine (`script/metrics.py`).

The pandas program is shallowly embedded: a data frame is a list of records,
nullable columns are `Option Nat`, pandas `NaN` is `none`, float results are
modelled exactly in `ℚ`, and a Python exception aborting a metric is modelled
by the metric returning `none`.  Pandas-specific semantics that the claims
depend on are modelled explicitly:

* `df.groupby('individual')` iterates the distinct keys in ascending sorted
  order, while `df['individual'].unique()` keeps first-appearance order;
* `df.dropna()` keeps exactly the rows whose three nullable fields are all
  present;
* Python `==`/`!=` treat `NaN` as unequal to everything, including itself;
* a missing dictionary key raises, and a division by zero raises.
-/

namespace CommDy

/-- One observation record.  `time` and `individual` are always present;
`group`, `gcolor` (the group's dominant community color) and `icolor` (the
individual's own community color) are nullable. -/
structure Row where
  time : Nat
  group : Option Nat
  individual : Nat
  gcolor : Option Nat
  icolor : Option Nat
deriving DecidableEq

abbrev Table := List Row

/-- A row kept by `df.dropna()`: all three nullable fields are present. -/
def Row.nonNull (r : Row) : Bool := r.group.isSome && r.gcolor.isSome && r.icolor.isSome

/-- `df.dropna()`. -/
def dropna (df : Table) : Table := df.filter Row.nonNull

/-- Python `==` on nullable values: `NaN` compares unequal to everything,
itself included. -/
def pyEq (a b : Option Nat) : Bool :=
  match a, b with
  | some x, some y => x == y
  | _, _ => false

/-- Python `!=` on nullable values. -/
def pyNe (a b : Option Nat) : Bool := !(pyEq a b)

/-- Distinct values in first-appearance order, as `Series.unique()` returns
them (the first argument accumulates the values already seen). -/
def uniqueAux (seen : List Nat) : List Nat → List Nat
  | [] => []
  | x :: xs => if x ∈ seen then uniqueAux seen xs else x :: uniqueAux (x :: seen) xs

def unique (l : List Nat) : List Nat := uniqueAux [] l

/-- The identity column of the assembled output: `df['individual'].unique()`,
first-appearance order. -/
def identityColumn (df : Table) : List Nat := unique (df.map Row.individual)

/-- The order in which `df.groupby('individual')` yields the individuals:
pandas sorts the group keys ascending. -/
def groupbyIndividuals (df : Table) : List Nat :=
  List.insertionSort (· ≤ ·) (unique (df.map Row.individual))

/-- The rows of one individual, in table order. -/
def rowsOf (df : Table) (i : Nat) : Table := df.filter (fun r => r.individual == i)

/-- Rational division modelled through `Rat.divInt` (extensionally the field
division on `ℚ`, with `x / 0 = 0`; see `qdiv_eq_div`). -/
def qdiv (a b : ℚ) : ℚ := Rat.divInt (a.num * (b.den : Int)) ((a.den : Int) * b.num)

/-- `avg`: the average of a list, `0.0` when the list is empty. -/
def avg (xs : List ℚ) : ℚ := if xs.length = 0 then 0 else qdiv xs.sum (xs.length : ℚ)

/-- `adjacent_pairs`: consecutive pairs of a sequence. -/
def adjacent_pairs {α : Type} : List α → List (α × α)
  | [] => []
  | [_] => []
  | a :: b :: l => (a, b) :: adjacent_pairs (b :: l)

/-- Run `f` along a list; a `none` anywhere (a raised exception) aborts the
whole computation. -/
def mapOption {α β : Type} (f : α → Option β) : List α → Option (List β)
  | [] => some []
  | a :: l =>
    match f a, mapOption f l with
    | some b, some bs => some (b :: bs)
    | _, _ => none

/-! ## absenteeism -/

/-- The set (as a deduplicated list) of non-null dominant group colors recorded
at time `t`: the value `time_gcolors[t]`. -/
def gcolorsAt (df : Table) (t : Nat) : List Nat :=
  unique (df.filterMap (fun r => if r.time == t then r.gcolor else none))

/-- `time_gcolors` has a key for `t` iff some row at time `t` carries a
non-null `gcolor`; looking up any other time raises `KeyError`. -/
def timeHasGcolor (df : Table) (t : Nat) : Bool :=
  df.any (fun r => r.time == t && r.gcolor.isSome)

/-- One individual's absenteeism: the fraction of its rows whose own color is
present among the dominant colors at that time but differs from the current
group's dominant color.  The denominator is the individual's total row count.
`none` models the `KeyError` raised when some row's time has no non-null
dominant color anywhere in the table. -/
def absenteeism_of (df : Table) (i : Nat) : Option ℚ :=
  let rs := rowsOf df i
  if rs.all (fun r => timeHasGcolor df r.time) then
    some (qdiv ((rs.countP (fun r =>
      pyNe r.gcolor r.icolor &&
        (match r.icolor with
         | some c => (gcolorsAt df r.time).contains c
         | none => false)) : ℚ)) (rs.length : ℚ))
  else none

def absenteeism (df : Table) : Option (List ℚ) :=
  mapOption (absenteeism_of df) (groupbyIndividuals df)

/-! ## inquisitiveness -/

/-- One individual's inquisitiveness: rows with a non-null `gcolor` differing
(Python `!=`, so a null `icolor` differs) from `icolor`, divided by the number
of fully non-null rows.  `none` models the `ZeroDivisionError` raised when the
individual has no fully non-null row. -/
def inquisitiveness_of (df : Table) (i : Nat) : Option ℚ :=
  let rs := rowsOf df i
  if (dropna rs).length = 0 then none
  else
    some (qdiv ((rs.countP (fun r => pyNe r.gcolor r.icolor && r.gcolor.isSome) : ℚ))
      (((dropna rs).length : ℚ)))

def inquisitiveness (df : Table) : Option (List ℚ) :=
  mapOption (inquisitiveness_of df) (groupbyIndividuals df)

/-! ## community_stay -/

/-- Lengths of the maximal runs of Python-equal consecutive values; since
`NaN == NaN` is false, every null entry is a run of its own. -/
def runLengthsAux (prev : Option Nat) (n : Nat) : List (Option Nat) → List Nat
  | [] => [n]
  | c :: cs => if pyEq c prev then runLengthsAux prev (n + 1) cs else n :: runLengthsAux c 1 cs

def runLengths : List (Option Nat) → List Nat
  | [] => []
  | c :: cs => runLengthsAux c 1 cs

/-- The community-color sequence of one individual, in table order. -/
def icolors (df : Table) (i : Nat) : List (Option Nat) := (rowsOf df i).map Row.icolor

def community_stay_of (df : Table) (i : Nat) : ℚ :=
  avg ((runLengths (icolors df i)).map (fun n => (n : ℚ)))

def community_stay (df : Table) : List ℚ :=
  (groupbyIndividuals df).map (community_stay_of df)

/-! ## compute_subgroups and the Subgroup index -/

abbrev SubKey := Nat × Nat × Nat

/-- The `(time, group, icolor) -> set of individuals` dictionary, as an
insertion-ordered association list of Python sets. -/
abbrev SubDict := List (SubKey × Finset Nat)

def dictFind : SubDict → SubKey → Option (Finset Nat)
  | [], _ => none
  | (k2, s) :: d, k => if k2 = k then some s else dictFind d k

def dictAdd : SubDict → SubKey → Nat → SubDict
  | [], k, i => [(k, {i})]
  | (k2, s) :: d, k, i =>
    if k2 = k then (k2, insert i s) :: d else (k2, s) :: dictAdd d k i

/-- Insert one (already fully non-null) row into the dictionary. -/
def add_row (d : SubDict) (r : Row) : SubDict :=
  match r.group, r.icolor with
  | some g, some c => dictAdd d (r.time, g, c) r.individual
  | _, _ => d

/-- `compute_subgroups`: iterate `df.dropna()` and collect, per
`(time, group, icolor)` key, the set of individuals observed with it. -/
def compute_subgroups (df : Table) : SubDict :=
  (dropna df).foldl add_row []

/-- The individuals of `rs` recorded under subgroup key `k`. -/
def keyMembers (rs : Table) (k : SubKey) : Finset Nat :=
  (rs.filterMap (fun r =>
    match r.group, r.icolor with
    | some g, some c => if (r.time, g, c) = k then some r.individual else none
    | _, _ => none)).toFinset

/-- The Subgroup of the data model (spec sections 3 and 4.1): the individuals
recorded at this `(time, group, icolor)` key by a row whose group and community
color are both non-null; the group's dominant color may be null. -/
def Subgroup (df : Table) (k : SubKey) : Finset Nat := keyMembers df k

/-- The set the engine's index stores under a key: `compute_subgroups` iterates
`df.dropna()`, so a member whose row has a null `gcolor` is missing here even
though it belongs to the data model's `Subgroup`. -/
def indexSubgroup (df : Table) (k : SubKey) : Finset Nat := keyMembers (dropna df) k

/-! ## avg_num_peers -/

def avg_num_peers_of (df : Table) (sub : SubDict) (i : Nat) : Option ℚ :=
  (mapOption
    (fun r =>
      match r.group, r.icolor with
      | some g, some c => (dictFind sub (r.time, g, c)).map (fun s => (s.card : ℚ) - 1)
      | _, _ => none)
    (dropna (rowsOf df i))).map avg

def avg_num_peers (df : Table) (sub : SubDict) : Option (List ℚ) :=
  mapOption (avg_num_peers_of df sub) (groupbyIndividuals df)

/-! ## peer_synchrony -/

/-- One adjacent pair's contribution.  The source only guards against null
groups, then subscripts the dictionary with each row's own key; a null
`icolor`, or a key that no fully non-null row produced, raises `KeyError`
(modelled by `none`). -/
def pair_contrib (sub : SubDict) (p : Row × Row) : Option ℚ :=
  if p.1.group.isNone || p.2.group.isNone then some 0
  else
    match p.1.group, p.1.icolor, p.2.group, p.2.icolor with
    | some g1, some c1, some g2, some c2 =>
      match dictFind sub (p.1.time, g1, c1), dictFind sub (p.2.time, g2, c2) with
      | some m1, some m2 =>
        if m2.card = 1 then some 0
        else some (qdiv (((m1 ∩ m2).card : ℚ) - 1) ((m2.card : ℚ) - 1))
      | _, _ => none
    | _, _, _, _ => none

def peer_synchrony_of (df : Table) (sub : SubDict) (i : Nat) : Option ℚ :=
  (mapOption (pair_contrib sub) (adjacent_pairs (rowsOf df i))).map avg

def peer_synchrony (df : Table) (sub : SubDict) : Option (List ℚ) :=
  mapOption (peer_synchrony_of df sub) (groupbyIndividuals df)

/-! ## group_size -/

/-- `group_size[t, g]`: the number of FULLY NON-NULL rows at `(t, g)` (the
source counts over `df.dropna()`). -/
def group_size_count (df : Table) (t g : Nat) : Nat :=
  (dropna df).countP (fun r => r.time == t && r.group == some g)

/-- One individual's mean group size.  Pandas aligns the `df.dropna()` column
with the full `individual` column, leaving `NaN` on dropped rows, and
`groupby(...).mean()` skips `NaN`s; an individual with only `NaN` entries gets
a `NaN` mean, modelled by `none`. -/
def group_size_of (df : Table) (i : Nat) : Option ℚ :=
  let xs := (dropna (rowsOf df i)).filterMap
    (fun r => r.group.map (fun g => (group_size_count df r.time g : ℚ)))
  if xs.length = 0 then none else some (qdiv xs.sum (xs.length : ℚ))

def group_size (df : Table) : List (Option ℚ) :=
  (groupbyIndividuals df).map (group_size_of df)

/-! ## group_homogeneity -/

/-- The rows pandas groups under key `(t, g)` when building `h` (only the
`group` column of the three-column helper frame can be null, so only null
groups are dropped). -/
def homog_rows (df : Table) (t g : Nat) : Table :=
  df.filter (fun r => r.time == t && r.group == some g)

/-- `h[t, g]`: the 0/1 column `gcolor == icolor` is built before dropping
nulls, so a row with a null color scores 0 and still counts in the
denominator. -/
def homog_frac (df : Table) (t g : Nat) : ℚ :=
  qdiv ((homog_rows df t g).countP (fun r => pyEq r.gcolor r.icolor) : ℚ)
    ((homog_rows df t g).length : ℚ)

def group_homogeneity_of (df : Table) (i : Nat) : ℚ :=
  avg ((dropna (rowsOf df i)).filterMap
    (fun r => r.group.map (fun g => homog_frac df r.time g)))

def group_homogeneity (df : Table) : List ℚ :=
  (groupbyIndividuals df).map (group_homogeneity_of df)

/-! ## individual_apparency -/

/-- The distinct time values in first-occurrence order (`df['time'].unique()`). -/
def timesFA (df : Table) : List Nat := unique (df.map Row.time)

def rankOf : List Nat → Nat → Nat
  | [], _ => 0
  | x :: xs, t => if x = t then 0 else rankOf xs t + 1

/-- The Time Rank Index: `time_index[t]`. -/
def time_rank (df : Table) (t : Nat) : Nat := rankOf (timesFA df) t

/-- The time values of the rows carrying community color `c`. -/
def color_times (df : Table) (c : Nat) : List Nat :=
  df.filterMap (fun r => if r.icolor == some c then some r.time else none)

def listMax : List Nat → Nat
  | [] => 0
  | x :: xs => xs.foldl max x

def listMin : List Nat → Nat
  | [] => 0
  | x :: xs => xs.foldl min x

/-- `community_apparency[c]`: rank of the color's largest time minus rank of
its smallest time, plus one. -/
def apparency (df : Table) (c : Nat) : ℚ :=
  (time_rank df (listMax (color_times df c)) : ℚ) -
    (time_rank df (listMin (color_times df c)) : ℚ) + 1

/-- One individual's apparency: the mean of `community_apparency` over the
distinct colors in `set(group['icolor'].values)`.  That set keeps `NaN`
entries, and `community_apparency` (built by `groupby('icolor')`) has no `NaN`
key, so any null color of the individual raises `KeyError` (`none`). -/
def individual_apparency_of (df : Table) (i : Nat) : Option ℚ :=
  let cs := icolors df i
  if cs.all Option.isSome then
    some (avg ((unique (cs.filterMap id)).map (apparency df)))
  else none

def individual_apparency (df : Table) : Option (List ℚ) :=
  mapOption (individual_apparency_of df) (groupbyIndividuals df)

/-! ## cyclicity -/

/-- Continuation of `run_starts` below, `prev` being the previous entry. -/
def run_starts_aux (prev : Option Nat) : List (Option Nat) → Nat
  | [] => 0
  | c :: cs => (if pyNe prev c && c.isSome then 1 else 0) + run_starts_aux c cs

/-- `colors[colors.shift() != colors].count()`: the entries kept are those
differing from their predecessor under pandas `!=` (so `NaN` always starts a
new run and breaks its neighbors' runs), and `count()` then ignores the kept
null entries. -/
def run_starts : List (Option Nat) → Nat
  | [] => 0
  | c :: cs => (if c.isSome then 1 else 0) + run_starts_aux c cs

/-- `Series.nunique()`: the number of distinct non-null values. -/
def nunique (l : List (Option Nat)) : Nat := (unique (l.filterMap id)).length

def cyclicity_of (df : Table) (i : Nat) : Int :=
  (run_starts (icolors df i) : Int) - (nunique (icolors df i) : Int)

def cyclicity (df : Table) : List Int :=
  (groupbyIndividuals df).map (cyclicity_of df)

/-! ## community_size -/

/-- `size[t, c]`: the number of rows at time `t` with community color `c`
(the groupby key never includes null colors). -/
def community_size_count (df : Table) (t c : Nat) : Nat :=
  df.countP (fun r => r.time == t && r.icolor == some c)

/-- One individual's mean community size, over ALL its rows; a row with a null
`icolor` subscripts `size` with a key that cannot be present, raising
`KeyError` (`none`). -/
def community_size_of (df : Table) (i : Nat) : Option ℚ :=
  (mapOption
    (fun r => r.icolor.map (fun c => (community_size_count df r.time c : ℚ)))
    (rowsOf df i)).map avg

def community_size (df : Table) : Option (List ℚ) :=
  mapOption (community_size_of df) (groupbyIndividuals df)

/-! ## compute_individual_metrics -/

/-- The assembled output table, one column per metric. -/
structure MetricsTable where
  individual : List Nat
  absenteeism : List ℚ
  inquisitiveness : List ℚ
  community_stay : List ℚ
  avg_num_peers : List ℚ
  peer_synchrony : List ℚ
  group_size : List (Option ℚ)
  group_homogeneity : List ℚ
  individual_apparency : List ℚ
  cyclicity : List Int
  community_size : List ℚ
deriving DecidableEq

/-- `compute_individual_metrics`: build the shared subgroup index, run the ten
metrics, and pair the `unique()` identity column with the ten value lists
positionally.  Any exception in a metric aborts the whole run (`none`). -/
def compute_individual_metrics (df : Table) : Option MetricsTable :=
  let sub := compute_subgroups df
  match absenteeism df, inquisitiveness df, avg_num_peers df sub,
      peer_synchrony df sub, individual_apparency df, community_size df with
  | some ab, some inq, some anp, some ps, some ia, some cs =>
    some
      { individual := identityColumn df
        absenteeism := ab
        inquisitiveness := inq
        community_stay := community_stay df
        avg_num_peers := anp
        peer_synchrony := ps
        group_size := group_size df
        group_homogeneity := group_homogeneity df
        individual_apparency := ia
        cyclicity := cyclicity df
        community_size := cs }
  | _, _, _, _, _, _ => none

end CommDy

namespace CommDy

/-! ## Basic lemmas about the modelling helpers -/

theorem qdiv_eq_div (a b : ℚ) : qdiv a b = a / b := by
  unfold qdiv
  rcases eq_or_ne b 0 with h | h
  · subst h
    simp [Rat.divInt_eq_div]
  · have hbn : b.num ≠ 0 := Rat.num_ne_zero.mpr h
    have hbnQ : ((b.num : ℚ)) ≠ 0 := Int.cast_ne_zero.mpr hbn
    have hadQ : ((a.den : ℚ)) ≠ 0 := Nat.cast_ne_zero.mpr a.den_nz
    have hbdQ : ((b.den : ℚ)) ≠ 0 := Nat.cast_ne_zero.mpr b.den_nz
    have h1 : ((a.den : ℚ)) * ((b.num : ℚ)) ≠ 0 := mul_ne_zero hadQ hbnQ
    have ha : ((a.num : ℚ)) = a * ((a.den : ℚ)) := (div_eq_iff hadQ).mp (Rat.num_div_den a)
    have hb2 : ((b.num : ℚ)) = b * ((b.den : ℚ)) := (div_eq_iff hbdQ).mp (Rat.num_div_den b)
    rw [Rat.divInt_eq_div]
    push_cast
    rw [div_eq_div_iff h1 h, ha, hb2]
    ring

theorem mapOption_length {α β : Type} (f : α → Option β) :
    ∀ (l : List α) (ys : List β), mapOption f l = some ys → ys.length = l.length := by
  intro l
  induction l with
  | nil =>
    intro ys h
    simp only [mapOption, Option.some.injEq] at h
    simp [← h]
  | cons a l ih =>
    intro ys h
    simp only [mapOption] at h
    cases hfa : f a with
    | none => rw [hfa] at h; simp at h
    | some b =>
      rw [hfa] at h
      cases hml : mapOption f l with
      | none => rw [hml] at h; simp at h
      | some bs =>
        rw [hml] at h
        simp only [Option.some.injEq] at h
        rw [← h]
        simp [ih bs hml]

theorem mapOption_map {α β : Type} (f : α → Option β) (g : α → β)
    (hfg : ∀ a b, f a = some b → b = g a) :
    ∀ (l : List α) (ys : List β), mapOption f l = some ys → ys = l.map g := by
  intro l
  induction l with
  | nil =>
    intro ys h
    simp only [mapOption, Option.some.injEq] at h
    simp [← h]
  | cons a l ih =>
    intro ys h
    simp only [mapOption] at h
    cases hfa : f a with
    | none => rw [hfa] at h; simp at h
    | some b =>
      rw [hfa] at h
      cases hml : mapOption f l with
      | none => rw [hml] at h; simp at h
      | some bs =>
        rw [hml] at h
        simp only [Option.some.injEq] at h
        rw [← h, List.map_cons, hfg a b hfa, ih bs hml]

theorem mapOption_none {α β : Type} (f : α → Option β) :
    ∀ (l : List α) (a : α), a ∈ l → f a = none → mapOption f l = none := by
  intro l
  induction l with
  | nil => intro a ha; simp at ha
  | cons x l ih =>
    intro a ha hfa
    rcases List.mem_cons.mp ha with h | h
    · subst h
      simp [mapOption, hfa]
    · simp only [mapOption, ih a h hfa]
      cases f x <;> simp

theorem mapOption_all_some {α β : Type} (f : α → Option β) :
    ∀ l : List α, (∀ a ∈ l, (f a).isSome) → mapOption f l = some (l.filterMap f) := by
  intro l
  induction l with
  | nil => intro _; simp [mapOption]
  | cons a l ih =>
    intro h
    have hfa : (f a).isSome := h a (List.mem_cons_self a l)
    cases hfa2 : f a with
    | none => rw [hfa2] at hfa; simp at hfa
    | some b =>
      have hrest := ih (fun x hx => h x (List.mem_cons_of_mem a hx))
      simp [mapOption, hfa2, hrest, List.filterMap_cons]

theorem filter_nonNull_filterMap {β : Type} (f : Row → Nat → β) :
    ∀ l : Table,
      (l.filter Row.nonNull).filterMap (fun r => r.group.map (f r)) =
        l.filterMap (fun r =>
          match r.group, r.gcolor, r.icolor with
          | some g, some _, some _ => some (f r g)
          | _, _, _ => none) := by
  intro l
  induction l with
  | nil => simp
  | cons r l ih =>
    cases hg : r.group <;> cases hgc : r.gcolor <;> cases hic : r.icolor <;>
      simp [List.filter_cons, Row.nonNull, hg, hgc, hic, List.filterMap_cons, ih]

end CommDy


namespace CommDy

/-! ## The subgroup dictionary stores exactly the fully non-null subgroups -/

theorem dictFind_dictAdd (d : SubDict) (k : SubKey) (i : Nat) (k2 : SubKey) :
    dictFind (dictAdd d k i) k2 =
      if k2 = k then some ((dictFind d k).elim {i} (insert i)) else dictFind d k2 := by
  induction d with
  | nil =>
    by_cases h : k2 = k
    · subst h; simp [dictAdd, dictFind]
    · simp [dictAdd, dictFind, h, Ne.symm h]
  | cons p d ih =>
    obtain ⟨k3, s⟩ := p
    by_cases h3 : k3 = k
    · subst h3
      by_cases h2 : k2 = k3
      · subst h2; simp [dictAdd, dictFind]
      · simp [dictAdd, dictFind, h2, Ne.symm h2]
    · by_cases h2 : k2 = k3
      · subst h2
        simp [dictAdd, dictFind, h3, Ne.symm h3]
      · simp [dictAdd, dictFind, h2, h3, Ne.symm h2, ih]

theorem keyMembers_nil (k : SubKey) : keyMembers [] k = ∅ := rfl

theorem keyMembers_cons (r : Row) (rs : Table) (k : SubKey) :
    keyMembers (r :: rs) k =
      match r.group, r.icolor with
      | some g, some c =>
        if (r.time, g, c) = k then insert r.individual (keyMembers rs k) else keyMembers rs k
      | _, _ => keyMembers rs k := by
  unfold keyMembers
  cases hg : r.group with
  | none => simp [List.filterMap_cons, hg]
  | some g =>
    cases hic : r.icolor with
    | none => simp [List.filterMap_cons, hg, hic]
    | some c =>
      simp only [List.filterMap_cons, hg, hic]
      by_cases hk : (r.time, g, c) = k
      · rw [if_pos hk, if_pos hk]
        simp [List.toFinset_cons]
      · rw [if_neg hk, if_neg hk]

theorem dictFind_foldl_add_row :
    ∀ (rs : Table) (d : SubDict) (k : SubKey),
      dictFind (rs.foldl add_row d) k =
        match dictFind d k with
        | some s => some (s ∪ keyMembers rs k)
        | none => if keyMembers rs k = ∅ then none else some (keyMembers rs k) := by
  intro rs
  induction rs with
  | nil =>
    intro d k
    simp only [List.foldl_nil, keyMembers_nil]
    cases hd : dictFind d k <;> simp [hd]
  | cons r rs ih =>
    intro d k
    rw [List.foldl_cons, ih (add_row d r) k, keyMembers_cons]
    cases hg : r.group with
    | none => simp only [add_row, hg]
    | some g =>
      cases hic : r.icolor with
      | none => simp only [add_row, hg, hic]
      | some c =>
        simp only [add_row, hg, hic]
        by_cases hk : (r.time, g, c) = k
        · subst hk
          rw [dictFind_dictAdd]
          simp only [eq_self_iff_true, if_true]
          cases hd : dictFind d (r.time, g, c) with
          | none =>
            simp only [Option.elim]
            rw [if_neg (Finset.insert_ne_empty _ _), Finset.insert_eq]
          | some s =>
            simp only [Option.elim]
            rw [Finset.union_insert, Finset.insert_union]
        · rw [dictFind_dictAdd, if_neg (Ne.symm hk), if_neg hk]

theorem compute_subgroups_find (df : Table) (k : SubKey) :
    dictFind (compute_subgroups df) k =
      if indexSubgroup df k = ∅ then none else some (indexSubgroup df k) := by
  unfold compute_subgroups indexSubgroup
  rw [dictFind_foldl_add_row (dropna df) [] k]
  rfl

theorem dictFind_eq_indexSubgroup (df : Table) (k : SubKey) (s : Finset Nat)
    (h : dictFind (compute_subgroups df) k = some s) : s = indexSubgroup df k := by
  rw [compute_subgroups_find] at h
  by_cases he : indexSubgroup df k = ∅
  · rw [if_pos he] at h; cases h
  · rw [if_neg he] at h
    exact (Option.some_inj.mp h).symm

end CommDy


namespace CommDy

/-! ## Run counting: lemmas for cyclicity -/

theorem uniqueAux_length (l : List Nat) :
    ∀ seen : List Nat, (uniqueAux seen l).length = (l.toFinset \ seen.toFinset).card := by
  induction l with
  | nil => intro seen; simp [uniqueAux]
  | cons x xs ih =>
    intro seen
    by_cases h : x ∈ seen
    · simp only [uniqueAux, if_pos h]
      rw [ih seen, List.toFinset_cons,
        Finset.insert_sdiff_of_mem _ (List.mem_toFinset.mpr h)]
    · simp only [uniqueAux, if_neg h, List.length_cons]
      rw [ih (x :: seen), List.toFinset_cons, List.toFinset_cons,
        Finset.sdiff_insert, Finset.insert_sdiff_of_not_mem _ (by simpa using h),
        Finset.card_insert_eq_ite]
      by_cases hx : x ∈ xs.toFinset \ seen.toFinset
      · rw [if_pos hx, Finset.card_erase_add_one hx]
      · rw [if_neg hx, Finset.erase_eq_of_not_mem hx]

theorem unique_length_toFinset (l : List Nat) : (unique l).length = l.toFinset.card := by
  unfold unique
  rw [uniqueAux_length]
  simp

theorem nunique_eq_card (l : List (Option Nat)) :
    nunique l = ((l.filterMap id).toFinset).card := by
  unfold nunique
  rw [unique_length_toFinset]

/-- The previous entry, seen as the set of colors it can stop from counting. -/
def optFinset : Option Nat → Finset Nat
  | none => ∅
  | some c => {c}

theorem run_starts_aux_cons (prev c : Option Nat) (cs : List (Option Nat)) :
    run_starts_aux prev (c :: cs) =
      (if pyNe prev c && c.isSome then 1 else 0) + run_starts_aux c cs := rfl

theorem run_starts_aux_cons_none (prev : Option Nat) (cs : List (Option Nat)) :
    run_starts_aux prev (none :: cs) = run_starts_aux none cs := by
  rw [run_starts_aux_cons]
  simp

theorem run_starts_aux_cons_self (x : Nat) (cs : List (Option Nat)) :
    run_starts_aux (some x) (some x :: cs) = run_starts_aux (some x) cs := by
  rw [run_starts_aux_cons]
  simp [pyNe, pyEq]

theorem run_starts_aux_cons_ne (prev : Option Nat) (x : Nat) (cs : List (Option Nat))
    (h : prev ≠ some x) :
    run_starts_aux prev (some x :: cs) = 1 + run_starts_aux (some x) cs := by
  rw [run_starts_aux_cons]
  cases prev with
  | none => simp [pyNe, pyEq]
  | some y =>
    have hyx : (y == x) = false := by
      have : y ≠ x := fun hyx => h (by rw [hyx])
      simpa using this
    simp [pyNe, pyEq, hyx]

theorem card_sdiff_le_run_starts_aux (l : List (Option Nat)) :
    ∀ prev : Option Nat,
      (((l.filterMap id).toFinset) \ optFinset prev).card ≤ run_starts_aux prev l := by
  induction l with
  | nil => intro prev; simp [run_starts_aux]
  | cons c cs ih =>
    intro prev
    cases c with
    | none =>
      rw [run_starts_aux_cons_none]
      calc (((none :: cs).filterMap id).toFinset \ optFinset prev).card
          ≤ ((cs.filterMap id).toFinset).card := by
            refine Finset.card_le_card ?_
            simp only [List.filterMap_cons, id]
            exact Finset.sdiff_subset
        _ ≤ run_starts_aux none cs := by simpa [optFinset] using ih none
    | some x =>
      by_cases hp : prev = some x
      · subst hp
        rw [run_starts_aux_cons_self]
        simp only [List.filterMap_cons, id, List.toFinset_cons, optFinset]
        rw [Finset.insert_sdiff_of_mem _ (Finset.mem_singleton_self x)]
        simpa [optFinset] using ih (some x)
      · rw [run_starts_aux_cons_ne prev x cs hp]
        simp only [List.filterMap_cons, id, List.toFinset_cons]
        have hsub : insert x (cs.filterMap id).toFinset \ optFinset prev ⊆
            insert x ((cs.filterMap id).toFinset \ {x}) := by
          intro y hy
          rcases Finset.mem_sdiff.mp hy with ⟨hy1, _⟩
          by_cases hyx : y = x
          · rw [hyx]; exact Finset.mem_insert_self _ _
          · rcases Finset.mem_insert.mp hy1 with h | h
            · exact absurd h hyx
            · exact Finset.mem_insert_of_mem (Finset.mem_sdiff.mpr ⟨h, by simpa using hyx⟩)
        refine le_trans (Finset.card_le_card hsub) ?_
        refine le_trans (Finset.card_insert_le _ _) ?_
        have h2 : ((cs.filterMap id).toFinset \ {x}).card ≤ run_starts_aux (some x) cs := by
          simpa [optFinset] using ih (some x)
        omega

theorem run_starts_cons (c : Option Nat) (cs : List (Option Nat)) :
    run_starts (c :: cs) = (if c.isSome then 1 else 0) + run_starts_aux c cs := rfl

theorem nunique_le_run_starts (l : List (Option Nat)) : nunique l ≤ run_starts l := by
  rw [nunique_eq_card]
  cases l with
  | nil => simp [run_starts]
  | cons c cs =>
    rw [run_starts_cons]
    cases c with
    | none =>
      simp only [List.filterMap_cons, id, Option.isSome_none, Bool.false_eq_true,
        if_false, Nat.zero_add]
      simpa [optFinset] using card_sdiff_le_run_starts_aux cs none
    | some x =>
      simp only [List.filterMap_cons, id, Option.isSome_some, if_true, List.toFinset_cons]
      have h1 : (insert x (cs.filterMap id).toFinset).card ≤
          ((cs.filterMap id).toFinset \ {x}).card + 1 := by
        by_cases hx : x ∈ (cs.filterMap id).toFinset
        · rw [Finset.card_insert_eq_ite, if_pos hx, Finset.sdiff_singleton_eq_erase]
          have := Finset.card_erase_add_one hx
          omega
        · rw [Finset.card_insert_eq_ite, if_neg hx, Finset.sdiff_singleton_eq_erase,
            Finset.erase_eq_of_not_mem hx]
      have h2 : ((cs.filterMap id).toFinset \ {x}).card ≤ run_starts_aux (some x) cs := by
        simpa [optFinset] using card_sdiff_le_run_starts_aux cs (some x)
      omega

theorem runLengthsAux_cons_eq (prev c : Option Nat) (n : Nat) (cs : List (Option Nat))
    (h : pyEq c prev = true) :
    runLengthsAux prev n (c :: cs) = runLengthsAux prev (n + 1) cs := by
  simp [runLengthsAux, h]

theorem runLengthsAux_cons_ne (prev c : Option Nat) (n : Nat) (cs : List (Option Nat))
    (h : pyEq c prev = false) :
    runLengthsAux prev n (c :: cs) = n :: runLengthsAux c 1 cs := by
  simp [runLengthsAux, h]

theorem runLengthsAux_length (cs : List (Option Nat)) :
    ∀ (prev : Option Nat) (n : Nat), (∀ x ∈ cs, x.isSome) →
      (runLengthsAux prev n cs).length = 1 + run_starts_aux prev cs := by
  induction cs with
  | nil => intro prev n _; simp [runLengthsAux, run_starts_aux]
  | cons c cs ih =>
    intro prev n h
    have hc : c.isSome := h c (List.mem_cons_self c cs)
    have hrest : ∀ x ∈ cs, x.isSome := fun x hx => h x (List.mem_cons_of_mem c hx)
    obtain ⟨y, hy⟩ := Option.isSome_iff_exists.mp hc
    subst hy
    by_cases he : prev = some y
    · subst he
      rw [runLengthsAux_cons_eq _ _ _ _ (by simp [pyEq]), run_starts_aux_cons_self,
        ih (some y) (n + 1) hrest]
    · have hf : pyEq (some y) prev = false := by
        cases prev with
        | none => simp [pyEq]
        | some z =>
          have hzy : (y == z) = false := by
            have : z ≠ y := fun hzy2 => he (by rw [hzy2])
            simpa using fun hyz => this hyz.symm
          simpa [pyEq] using hzy
      rw [runLengthsAux_cons_ne _ _ _ _ hf, run_starts_aux_cons_ne prev y cs he,
        List.length_cons, ih (some y) 1 hrest]
      omega

theorem run_starts_eq_runLengths (l : List (Option Nat)) (h : ∀ x ∈ l, x.isSome) :
    run_starts l = (runLengths l).length := by
  cases l with
  | nil => simp [run_starts, runLengths]
  | cons c cs =>
    have hc : c.isSome := h c (List.mem_cons_self c cs)
    have hrest : ∀ x ∈ cs, x.isSome := fun x hx => h x (List.mem_cons_of_mem c hx)
    rw [run_starts_cons, if_pos hc]
    show 1 + run_starts_aux c cs = (runLengthsAux c 1 cs).length
    rw [runLengthsAux_length cs c 1 hrest]

theorem run_starts_aux_const (v : Option Nat) :
    ∀ cs : List (Option Nat), (∀ x ∈ cs, x = v) → run_starts_aux v cs = 0 := by
  intro cs
  induction cs with
  | nil => intro _; simp [run_starts_aux]
  | cons c cs ih =>
    intro h
    have hc : c = v := h c (List.mem_cons_self c cs)
    have hrest : ∀ x ∈ cs, x = v := fun x hx => h x (List.mem_cons_of_mem c hx)
    subst hc
    rw [run_starts_aux_cons]
    have hz : (pyNe c c && c.isSome) = false := by
      cases c with
      | none => simp
      | some y => simp [pyNe, pyEq]
    rw [hz]
    simpa using ih hrest

end CommDy

namespace CommDy

/-! ## peer_synchrony: per-pair contributions, index-side and claim-side -/

/-- The contribution of one adjacent pair through the sets the engine's index
holds: `0.0` on a null group, `0.0` when the later index subgroup is a
singleton, and otherwise the fraction of later peers kept from the earlier
step.  The index subgroups come from `df.dropna()`, so they are smaller than
the data model's Subgroups when a member's row has a null `gcolor`.  (On a
pair whose `icolor` is null the engine raises instead; such pairs never reach
a returned value.) -/
def index_contrib (df : Table) (p : Row × Row) : ℚ :=
  match p.1.group, p.2.group with
  | some g1, some g2 =>
    match p.1.icolor, p.2.icolor with
    | some c1, some c2 =>
      if (indexSubgroup df (p.2.time, g2, c2)).card = 1 then 0
      else
        qdiv (((indexSubgroup df (p.1.time, g1, c1) ∩
              indexSubgroup df (p.2.time, g2, c2)).card : ℚ) - 1)
          (((indexSubgroup df (p.2.time, g2, c2)).card : ℚ) - 1)
    | _, _ => 0
  | _, _ => 0

/-- The contribution of one adjacent pair as claim C5 words it, with S1 and S2
the data model's Subgroups (group and community non-null; `gcolor` ignored). -/
def claim_contrib (df : Table) (p : Row × Row) : ℚ :=
  match p.1.group, p.2.group with
  | some g1, some g2 =>
    match p.1.icolor, p.2.icolor with
    | some c1, some c2 =>
      if (Subgroup df (p.2.time, g2, c2)).card = 1 then 0
      else
        qdiv (((Subgroup df (p.1.time, g1, c1) ∩ Subgroup df (p.2.time, g2, c2)).card : ℚ) - 1)
          (((Subgroup df (p.2.time, g2, c2)).card : ℚ) - 1)
    | _, _ => 0
  | _, _ => 0

theorem avg_nil : avg [] = 0 := by simp [avg]

theorem adjacent_pairs_short {α : Type} (l : List α) (h : l.length ≤ 1) :
    adjacent_pairs l = [] := by
  cases l with
  | nil => rfl
  | cons a l2 =>
    cases l2 with
    | nil => rfl
    | cons b l3 => simp at h

theorem pair_contrib_index (df : Table) (p : Row × Row) (q : ℚ)
    (h : pair_contrib (compute_subgroups df) p = some q) : q = index_contrib df p := by
  unfold pair_contrib at h
  unfold index_contrib
  cases hg1 : p.1.group with
  | none =>
    rw [hg1] at h
    simp only [Option.isNone_none, Bool.true_or, if_true, Option.some_inj] at h
    simp [← h]
  | some g1 =>
    cases hg2 : p.2.group with
    | none =>
      rw [hg1, hg2] at h
      simp only [Option.isNone_none, Option.isNone_some, Bool.or_true, if_true,
        Option.some_inj] at h
      simp [← h]
    | some g2 =>
      rw [hg1, hg2] at h
      simp only [Option.isNone_some, Bool.or_self, Bool.false_eq_true, if_false] at h
      cases hic1 : p.1.icolor with
      | none => rw [hic1] at h; cases p.2.icolor <;> simp at h
      | some c1 =>
        cases hic2 : p.2.icolor with
        | none => rw [hic1, hic2] at h; simp at h
        | some c2 =>
          rw [hic1, hic2] at h
          simp only [hg1, hg2, hic1, hic2]
          cases hd1 : dictFind (compute_subgroups df) (p.1.time, g1, c1) with
          | none => simp [hd1] at h
          | some m1 =>
            cases hd2 : dictFind (compute_subgroups df) (p.2.time, g2, c2) with
            | none => simp [hd1, hd2] at h
            | some m2 =>
              simp only [hd1, hd2] at h
              have e1 := dictFind_eq_indexSubgroup df _ m1 hd1
              have e2 := dictFind_eq_indexSubgroup df _ m2 hd2
              rw [e1, e2] at h
              by_cases hcard : (indexSubgroup df (p.2.time, g2, c2)).card = 1
              · rw [if_pos hcard] at h
                rw [if_pos hcard]
                exact (Option.some_inj.mp h).symm
              · rw [if_neg hcard] at h
                rw [if_neg hcard]
                exact (Option.some_inj.mp h).symm

end CommDy

namespace CommDy

/-! ## Further helpers and the specification-side definitions used by claims -/

theorem length_filterMap_all_some {α β : Type} (g : α → Option β) :
    ∀ l : List α, (∀ a ∈ l, (g a).isSome) → (l.filterMap g).length = l.length := by
  intro l
  induction l with
  | nil => intro _; rfl
  | cons a l ih =>
    intro h
    have ha := h a (List.mem_cons_self a l)
    cases hga : g a with
    | none => rw [hga] at ha; simp at ha
    | some b =>
      simp [List.filterMap_cons, hga, ih (fun x hx => h x (List.mem_cons_of_mem a hx))]

theorem filterMap_id_const_some (y : Nat) :
    ∀ cs : List (Option Nat), (∀ x ∈ cs, x = some y) →
      cs.filterMap id = List.replicate cs.length y := by
  intro cs
  induction cs with
  | nil => intro _; rfl
  | cons c cs ih =>
    intro h
    have hc : c = some y := h c (List.mem_cons_self c cs)
    subst hc
    simp only [List.filterMap_cons, id, List.length_cons, List.replicate_succ]
    rw [ih (fun x hx => h x (List.mem_cons_of_mem _ hx))]

theorem uniqueAux_replicate_mem (y : Nat) :
    ∀ (n : Nat) (seen : List Nat), y ∈ seen → uniqueAux seen (List.replicate n y) = [] := by
  intro n
  induction n with
  | zero => intro seen _; rfl
  | succ n ih => intro seen hy; simp [List.replicate_succ, uniqueAux, hy, ih seen hy]

/-- The inquisitiveness that claim C3 words: rows classified by the nullness of
the individual's own community color, with the non-null-`icolor` count as
denominator, and `0.0` on a zero denominator. -/
def inquisitiveness_claim_of (df : Table) (i : Nat) : ℚ :=
  let rs := rowsOf df i
  if rs.countP (fun r => r.icolor.isSome) = 0 then 0
  else qdiv ((rs.countP (fun r => r.icolor.isSome && pyNe r.icolor r.gcolor)) : ℚ)
    ((rs.countP (fun r => r.icolor.isSome)) : ℚ)

/-- The per-`(time, group)` homogeneity fraction that claim C6 words: computed
only over the rows whose two colors are both non-null. -/
def group_homogeneity_claim_frac (df : Table) (t g : Nat) : ℚ :=
  qdiv ((homog_rows df t g).countP (fun r => pyEq r.gcolor r.icolor) : ℚ)
    ((homog_rows df t g).countP (fun r => r.gcolor.isSome && r.icolor.isSome) : ℚ)

/-- The group_size that claim C7 words: every non-null-`group` observation
qualifies, the count is over the whole table, and an individual with no
qualifying observation gets `0.0`. -/
def group_size_claim_of (df : Table) (i : Nat) : ℚ :=
  avg ((rowsOf df i).filterMap (fun r => r.group.map (fun g =>
    (df.countP (fun r2 => r2.time == r.time && r2.group == some g) : ℚ))))

/-- The cyclicity that claim C9 words: the number of community_stay runs (null
entries are runs too) minus the number of distinct non-null colors. -/
def cyclicity_claim_of (df : Table) (i : Nat) : Int :=
  ((runLengths (icolors df i)).length : Int) - (nunique (icolors df i) : Int)

/-! ## Concrete tables used by the claim theorems -/

/-- Individual 2 appears first but sorts last; individual 1 has two rows. -/
def C1tbl : Table :=
  [⟨0, some 1, 2, some 1, some 1⟩, ⟨0, some 1, 1, some 1, some 1⟩, ⟨1, some 1, 1, some 1, some 1⟩]

/-- A single row whose `icolor` is null: `dropna` leaves nothing. -/
def C2tbl : Table := [⟨0, some 1, 5, some 1, none⟩]

/-- One matching fully non-null row, one row with null `icolor`. -/
def C3tbl : Table := [⟨0, some 1, 7, some 1, some 1⟩, ⟨1, some 1, 7, some 1, none⟩]

/-- A single row with a null community color. -/
def C4tbl : Table := [⟨0, some 1, 3, some 1, none⟩]

/-- The two-step scenario of spec section 8: at t=1 group 1 holds {1,2,3}, at
t=2 group 2 holds {1,2} and individual 3 is in group 3; everyone has community
color 1 throughout. -/
def S8tbl : Table :=
  [⟨1, some 1, 1, some 1, some 1⟩, ⟨1, some 1, 2, some 1, some 1⟩, ⟨1, some 1, 3, some 1, some 1⟩,
   ⟨2, some 2, 1, some 1, some 1⟩, ⟨2, some 2, 2, some 1, some 1⟩, ⟨2, some 3, 3, some 1, some 1⟩]

/-- Individual 1's adjacent pair of rows in `S8tbl`. -/
def S8x1 : Row := ⟨1, some 1, 1, some 1, some 1⟩

/-- Both individuals sit in group 1 with community 1 at both times, but
individual 2's first row has a null dominant group color. -/
def C5tbl : Table :=
  [⟨1, some 1, 1, some 1, some 1⟩, ⟨1, some 1, 2, none, some 1⟩,
   ⟨2, some 1, 1, some 1, some 1⟩, ⟨2, some 1, 2, some 1, some 1⟩]

def S8x2 : Row := ⟨2, some 2, 1, some 1, some 1⟩

/-- Group (0,1) has a matching member and a member with a null color. -/
def C6tbl : Table := [⟨0, some 1, 1, some 5, some 5⟩, ⟨0, some 1, 2, some 5, none⟩]

/-- Individual 2's row has a null color, individual 3's row a null group. -/
def C7tbl : Table :=
  [⟨0, some 1, 1, some 1, some 1⟩, ⟨0, some 1, 2, some 1, none⟩, ⟨0, none, 3, some 1, some 1⟩]

/-- Individual 1 has no non-null community color. -/
def C8tbl : Table := [⟨0, some 1, 1, some 1, none⟩]

/-- A clean two-time table for the individual_apparency witness. -/
def W8tbl : Table := [⟨0, some 1, 1, some 1, some 4⟩, ⟨5, some 1, 1, some 1, some 4⟩]

/-- A clean all-`icolor` table for the community_size witness. -/
def W4tbl : Table := [⟨0, some 1, 4, some 1, some 2⟩, ⟨1, some 1, 4, some 1, some 2⟩]

/-- Color sequence `[some 1, none]`: one non-null run but two community_stay runs. -/
def C9tbl : Table := [⟨0, some 1, 1, some 1, some 1⟩, ⟨1, some 1, 1, some 1, none⟩]

/-- A constant-color individual for the cyclicity witness. -/
def W9tbl : Table := [⟨0, some 1, 1, some 1, some 1⟩, ⟨1, some 1, 1, some 1, some 1⟩]

/-- Two adjacent rows with non-null groups whose second `icolor` is null. -/
def C10tbl : Table := [⟨0, some 1, 9, some 1, some 1⟩, ⟨1, some 1, 9, some 1, none⟩]

end CommDy

namespace CommDy

/-! ## Claim theorems -/

/-- C1, counterexample: the identity column is `unique()` (first-appearance
order `[2, 1]`) but every metric list follows the sorted `groupby` order, so on
`C1tbl` row 0 of the identity column (individual 2, whose community_stay is 1)
sits next to metric entry 0 (individual 1's value 2): the metric lists are not
in the identity column's individual ordering. -/
theorem C1_counterexample :
    community_stay C1tbl ≠ (identityColumn C1tbl).map (community_stay_of C1tbl) ∧
    identityColumn C1tbl = [2, 1] ∧
    community_stay C1tbl = [2, 1] ∧
    community_stay_of C1tbl 2 = 1 := by
  with_unfolding_all decide

/-- C1, amended: every metric yields exactly one value per distinct individual
— the two orderings are permutations of each other, and every metric list that
is produced has exactly one entry per distinct individual — but the metrics are
ordered by sorted individual key while the identity column is in
first-appearance order, so positional alignment holds only when the two orders
coincide. -/
theorem C1_amended (df : Table) :
    List.Perm (identityColumn df) (groupbyIndividuals df) ∧
    (community_stay df).length = (groupbyIndividuals df).length ∧
    (group_homogeneity df).length = (groupbyIndividuals df).length ∧
    (group_size df).length = (groupbyIndividuals df).length ∧
    (cyclicity df).length = (groupbyIndividuals df).length ∧
    (∀ l, absenteeism df = some l → l.length = (groupbyIndividuals df).length) ∧
    (∀ l, inquisitiveness df = some l → l.length = (groupbyIndividuals df).length) ∧
    (∀ l, avg_num_peers df (compute_subgroups df) = some l →
      l.length = (groupbyIndividuals df).length) ∧
    (∀ l, peer_synchrony df (compute_subgroups df) = some l →
      l.length = (groupbyIndividuals df).length) ∧
    (∀ l, individual_apparency df = some l → l.length = (groupbyIndividuals df).length) ∧
    (∀ l, community_size df = some l → l.length = (groupbyIndividuals df).length) := by
  refine ⟨?_, by simp [community_stay], by simp [group_homogeneity], by simp [group_size],
    by simp [cyclicity], fun l h => mapOption_length _ _ l h, fun l h => mapOption_length _ _ l h,
    fun l h => mapOption_length _ _ l h, fun l h => mapOption_length _ _ l h,
    fun l h => mapOption_length _ _ l h, fun l h => mapOption_length _ _ l h⟩
  unfold identityColumn groupbyIndividuals
  exact (List.perm_insertionSort _ _).symm

/-- C1, witness for the amended theorem at `C1tbl`, discharging the
`absenteeism` hypothesis there: the produced list has one entry per distinct
individual. -/
theorem C1_amended_witness :
    ([0, 0] : List ℚ).length = (groupbyIndividuals C1tbl).length :=
  (C1_amended C1tbl).2.2.2.2.2.1 [0, 0] (by with_unfolding_all decide)

/-- C2: the shared `avg` does return `0.0` on an empty list, but
`inquisitiveness` does not use it: on `C2tbl` individual 5 has no fully
non-null row, `len(group.dropna())` is 0, and the division raises
`ZeroDivisionError` (modelled by `none`) instead of yielding `0.0`. -/
theorem C2_inquisitiveness_zero_denominator :
    avg [] = 0 ∧
    (dropna (rowsOf C2tbl 5)).length = 0 ∧
    inquisitiveness C2tbl = none := by
  with_unfolding_all decide

/-- C3, counterexample: on `C3tbl` individual 7's second row has a null
`icolor` and a non-null `gcolor`; the code counts it as a visit (it tests the
nullness of `gcolor`) and divides by the single fully non-null row, giving 1,
while the claim's classification by `icolor` nullness gives 0. -/
theorem C3_counterexample :
    inquisitiveness_of C3tbl 7 = some 1 ∧
    inquisitiveness_claim_of C3tbl 7 = 0 ∧
    (1 : ℚ) ≠ 0 := by
  with_unfolding_all decide

/-- C3, amended: inquisitiveness counts the rows whose `gcolor` is non-null
and (by Python `!=`, nulls unequal) differs from `icolor`, divides by the
number of fully non-null rows, and raises on a zero denominator. -/
theorem C3_amended (df : Table) (i : Nat) :
    inquisitiveness_of df i =
      if (rowsOf df i).countP Row.nonNull = 0 then none
      else some (qdiv (((rowsOf df i).countP
          (fun r => r.gcolor.isSome && pyNe r.gcolor r.icolor)) : ℚ)
        (((rowsOf df i).countP Row.nonNull : ℚ))) := by
  have hcomm : (fun r : Row => r.gcolor.isSome && pyNe r.gcolor r.icolor) =
      (fun r : Row => pyNe r.gcolor r.icolor && r.gcolor.isSome) := by
    funext r
    exact Bool.and_comm _ _
  unfold inquisitiveness_of dropna
  rw [List.countP_eq_length_filter Row.nonNull (rowsOf df i), hcomm]

/-- C4, counterexample: `community_size` subscripts the `(time, icolor)` count
dictionary with every row's own key; on `C4tbl` the single row has a null
`icolor`, the key is absent, and the whole metric fails with a `KeyError`
(modelled by `none`) — the row is neither skipped nor counted as 0. -/
theorem C4_counterexample :
    community_size C4tbl = none ∧ (∃ r ∈ C4tbl, r.icolor = none) := by
  with_unfolding_all decide

/-- C4, amended: community_size averages the per-`(time, icolor)` counts over
all of an individual's observations when every observation has a non-null
community color, and any observation with a null community color makes the
whole metric fail with an unguarded missing-key lookup instead of applying a
fallback. -/
theorem C4_amended (df : Table) (i : Nat) :
    ((∀ r ∈ rowsOf df i, r.icolor.isSome) →
      community_size_of df i = some (avg ((rowsOf df i).filterMap
        (fun r => r.icolor.map (fun c => (community_size_count df r.time c : ℚ)))))) ∧
    ((∃ r ∈ rowsOf df i, r.icolor = none) → community_size_of df i = none) := by
  constructor
  · intro h
    unfold community_size_of
    rw [mapOption_all_some _ _ (fun r hr => by
      cases hic : r.icolor with
      | none => have h2 := h r hr; rw [hic] at h2; simp at h2
      | some c => simp [hic])]
    rfl
  · rintro ⟨r, hr, hic⟩
    unfold community_size_of
    rw [mapOption_none _ _ r hr (by rw [hic]; rfl)]
    rfl

/-- C4, witness for the amended theorem on the clean table `W4tbl`. -/
theorem C4_amended_witness :
    community_size_of W4tbl 4 = some (avg ((rowsOf W4tbl 4).filterMap
      (fun r => r.icolor.map (fun c => (community_size_count W4tbl r.time c : ℚ))))) :=
  (C4_amended W4tbl 4).1 (by with_unfolding_all decide)

end CommDy

namespace CommDy

/-- C5, counterexample: on `C5tbl` individual 2's first row has a null
`gcolor`, so `df.dropna()` keeps it out of the index: the stored subgroup at
`(1,1,1)` is `{1}` although the data model's Subgroup (group and community
non-null, spec sections 3 and 4.1) is `{1,2}`.  No exception is raised — the
key exists — and the engine returns 0.0 for individual 2 while the claim's
formula with the spec's Subgroups gives 1.0. -/
theorem C5_counterexample :
    Subgroup C5tbl (1, 1, 1) = {1, 2} ∧
    indexSubgroup C5tbl (1, 1, 1) = {1} ∧
    peer_synchrony_of C5tbl (compute_subgroups C5tbl) 2 = some 0 ∧
    avg ((adjacent_pairs (rowsOf C5tbl 2)).map (claim_contrib C5tbl)) = 1 ∧
    (0 : ℚ) ≠ 1 := by
  with_unfolding_all decide

/-- C5, amended: peer_synchrony is, per individual, the mean over adjacent row
pairs of: 0 on a null group, 0 when the later subgroup has size 1, else
(|S1 ∩ S2| − 1)/(|S2| − 1) — where S1 and S2 are the subgroups the ENGINE'S
INDEX stores under each row's own (time, group, icolor) key, built from fully
non-null rows only (a member's row with a null `gcolor` is excluded), not the
data model's Subgroups — whenever the engine returns a value; an individual
with fewer than two rows gets 0.0; and on the section-8 scenario the (t1,t2)
pair of individual 1 contributes exactly 1.0. -/
theorem C5_peer_synchrony (df : Table) (i : Nat) :
    ((rowsOf df i).length ≤ 1 → peer_synchrony_of df (compute_subgroups df) i = some 0) ∧
    (∀ v, peer_synchrony_of df (compute_subgroups df) i = some v →
      v = avg ((adjacent_pairs (rowsOf df i)).map (index_contrib df))) ∧
    pair_contrib (compute_subgroups S8tbl) (S8x1, S8x2) = some 1 := by
  refine ⟨?_, ?_, ?_⟩
  · intro h
    unfold peer_synchrony_of
    rw [adjacent_pairs_short _ h]
    show some (avg []) = some 0
    rw [avg_nil]
  · intro v hv
    unfold peer_synchrony_of at hv
    cases hm : mapOption (pair_contrib (compute_subgroups df))
        (adjacent_pairs (rowsOf df i)) with
    | none => rw [hm] at hv; cases hv
    | some qs =>
      rw [hm] at hv
      have hqs : qs = (adjacent_pairs (rowsOf df i)).map (index_contrib df) :=
        mapOption_map _ _ (fun p q hq => pair_contrib_index df p q hq) _ qs hm
      have hv2 : some (avg qs) = some v := hv
      rw [← Option.some_inj.mp hv2, hqs]
  · with_unfolding_all decide

/-- C5, witness for the amended theorem: an individual absent from the
section-8 table has no pair and gets 0.0, and individual 1's returned value
1.0 equals the index-side mean of contributions. -/
theorem C5_peer_synchrony_witness :
    peer_synchrony_of S8tbl (compute_subgroups S8tbl) 7 = some 0 ∧
    (1 : ℚ) = avg ((adjacent_pairs (rowsOf S8tbl 1)).map (index_contrib S8tbl)) := by
  constructor
  · exact (C5_peer_synchrony S8tbl 7).1 (by with_unfolding_all decide)
  · exact (C5_peer_synchrony S8tbl 1).2.1 1 (by with_unfolding_all decide)

/-- C6, counterexample: on `C6tbl` the `(0,1)` group has one row with matching
colors and one with a null `icolor`; the engine's precomputed fraction counts
the null row as a mismatch in the denominator (1/2), while the claim's
fraction over non-null-color rows is 1, and individual 1's metric is the
engine's 1/2, not the claimed 1. -/
theorem C6_counterexample :
    group_homogeneity_of C6tbl 1 = qdiv 1 2 ∧
    homog_frac C6tbl 0 1 = qdiv 1 2 ∧
    group_homogeneity_claim_frac C6tbl 0 1 = 1 ∧
    qdiv 1 2 ≠ (1 : ℚ) := by
  with_unfolding_all decide

/-- C6, amended: the per-`(time, group)` fraction is taken over all rows of
that group with a non-null `group` field, a row with any null color counting in
the denominator and never in the numerator, and each individual averages these
fractions over its fully non-null observations. -/
theorem C6_amended (df : Table) (i : Nat) :
    group_homogeneity_of df i =
      avg ((rowsOf df i).filterMap (fun r =>
        match r.group, r.gcolor, r.icolor with
        | some g, some _, some _ =>
          some (qdiv ((homog_rows df r.time g).countP
              (fun r2 => pyEq r2.gcolor r2.icolor) : ℚ)
            ((homog_rows df r.time g).length : ℚ))
        | _, _, _ => none)) := by
  unfold group_homogeneity_of dropna
  rw [filter_nonNull_filterMap (fun r g => homog_frac df r.time g) (rowsOf df i)]
  unfold homog_frac
  rfl

/-- C7, counterexample: on `C7tbl` the whole-table count of individuals in
group `(0,1)` is 2, but the engine counts only the fully non-null rows (1);
individual 2 has a non-null group yet is dropped entirely (its value is the
missing `NaN`, not 2.0), and individual 3, with no qualifying row, also gets
`NaN` where the claim promises 0.0. -/
theorem C7_counterexample :
    group_size_of C7tbl 1 = some 1 ∧ group_size_claim_of C7tbl 1 = 2 ∧
    group_size_of C7tbl 2 = none ∧ group_size_claim_of C7tbl 2 = 2 ∧
    group_size_of C7tbl 3 = none ∧ group_size_claim_of C7tbl 3 = 0 := by
  with_unfolding_all decide

/-- C7, amended: group_size averages, over an individual's fully non-null
observations, the number of fully non-null rows of that `(time, group)`, and
produces the missing value `NaN` (modelled by `none`) when the individual has
no fully non-null observation. -/
theorem C7_amended (df : Table) (i : Nat) :
    group_size_of df i =
      if (rowsOf df i).countP Row.nonNull = 0 then none
      else some (avg ((rowsOf df i).filterMap (fun r =>
        match r.group, r.gcolor, r.icolor with
        | some g, some _, some _ => some ((group_size_count df r.time g : ℚ))
        | _, _, _ => none))) := by
  have hfuse := filter_nonNull_filterMap
    (fun r g => (group_size_count df r.time g : ℚ)) (rowsOf df i)
  have hall : ∀ r ∈ (rowsOf df i).filter Row.nonNull,
      ((fun r : Row => r.group.map (fun g => (group_size_count df r.time g : ℚ))) r).isSome := by
    intro r hr
    have hnn := (List.mem_filter.mp hr).2
    cases hg : r.group with
    | none => unfold Row.nonNull at hnn; rw [hg] at hnn; simp at hnn
    | some g => simp [hg]
  have hxs : ((rowsOf df i).filterMap (fun r =>
      match r.group, r.gcolor, r.icolor with
      | some g, some _, some _ => some ((group_size_count df r.time g : ℚ))
      | _, _, _ => none)).length = (rowsOf df i).countP Row.nonNull := by
    rw [← hfuse, length_filterMap_all_some _ _ hall,
      List.countP_eq_length_filter Row.nonNull (rowsOf df i)]
  unfold group_size_of dropna
  rw [hfuse]
  by_cases hz : (rowsOf df i).countP Row.nonNull = 0
  · rw [if_pos (by rw [hxs]; exact hz), if_pos hz]
  · rw [if_neg (by rw [hxs]; exact hz), if_neg hz]
    unfold avg
    rw [if_neg (by rw [hxs]; exact hz)]

end CommDy

namespace CommDy

/-- C8, counterexample: on `C8tbl` individual 1 has no non-null community
color; `set(group['icolor'].values)` keeps the null, `community_apparency` has
no null key, and the metric raises `KeyError` (modelled by `none`) instead of
returning 0.0. -/
theorem C8_counterexample :
    (∀ x ∈ icolors C8tbl 1, x = none) ∧
    individual_apparency_of C8tbl 1 = none ∧
    individual_apparency_of C8tbl 1 ≠ some 0 := by
  with_unfolding_all decide

/-- C8, amended: when every one of an individual's community colors is
non-null, its metric is the mean over its distinct colors of
rank(max time of color) − rank(min time of color) + 1 under first-occurrence
time ranks; an individual with any null community color (in particular one
with no non-null colors at all) makes the metric fail instead of getting 0.0. -/
theorem C8_amended (df : Table) (i : Nat) :
    ((∀ x ∈ icolors df i, x.isSome) →
      individual_apparency_of df i =
        some (avg ((unique ((icolors df i).filterMap id)).map (fun c =>
          (time_rank df (listMax (color_times df c)) : ℚ) -
            (time_rank df (listMin (color_times df c)) : ℚ) + 1)))) ∧
    ((∃ x ∈ icolors df i, x = none) → individual_apparency_of df i = none) := by
  constructor
  · intro h
    unfold individual_apparency_of
    rw [if_pos (List.all_eq_true.mpr (fun x hx => h x hx))]
    unfold apparency
    rfl
  · rintro ⟨x, hx, hxn⟩
    unfold individual_apparency_of
    rw [if_neg (fun hall => by
      have h2 := List.all_eq_true.mp hall x hx
      rw [hxn] at h2
      simp at h2)]

/-- C8, witness for the amended theorem on the clean table `W8tbl`. -/
theorem C8_amended_witness :
    individual_apparency_of W8tbl 1 =
      some (avg ((unique ((icolors W8tbl 1).filterMap id)).map (fun c =>
        (time_rank W8tbl (listMax (color_times W8tbl c)) : ℚ) -
          (time_rank W8tbl (listMin (color_times W8tbl c)) : ℚ) + 1))) :=
  (C8_amended W8tbl 1).1 (by with_unfolding_all decide)

/-- C9, counterexample: individual 1 of `C9tbl` has the color sequence
`[some 1, null]`.  community_stay sees two runs (a null entry is its own run),
and the individual holds one distinct color, so the claim's formula gives
2 − 1 = 1; the engine's `count()` ignores the kept null entry and computes
1 − 1 = 0. -/
theorem C9_counterexample :
    cyclicity_of C9tbl 1 = 0 ∧ cyclicity_claim_of C9tbl 1 = 1 ∧ (0 : Int) ≠ 1 := by
  with_unfolding_all decide

/-- C9, amended: cyclicity counts only the runs that start with a non-null
color (so it equals the community_stay run count minus distinct colors exactly
when the individual has no null color), it is never negative, and an
individual whose color never changes gets 0. -/
theorem C9_amended (df : Table) (i : Nat) :
    0 ≤ cyclicity_of df i ∧
    ((∀ x ∈ icolors df i, x.isSome) → cyclicity_of df i = cyclicity_claim_of df i) ∧
    (∀ v : Option Nat, (∀ x ∈ icolors df i, x = v) → cyclicity_of df i = 0) := by
  refine ⟨?_, ?_, ?_⟩
  · unfold cyclicity_of
    have h := nunique_le_run_starts (icolors df i)
    omega
  · intro h
    unfold cyclicity_of cyclicity_claim_of
    rw [run_starts_eq_runLengths _ h]
  · intro v h
    unfold cyclicity_of
    cases v with
    | none =>
      have hfm : (icolors df i).filterMap id = [] :=
        List.filterMap_eq_nil_iff.mpr (fun x hx => by rw [h x hx]; rfl)
      have hnu : nunique (icolors df i) = 0 := by
        unfold nunique
        rw [hfm]
        rfl
      have hrs : run_starts (icolors df i) = 0 := by
        cases hl : icolors df i with
        | nil => rfl
        | cons c cs =>
          have hc : c = none := h c (by rw [hl]; exact List.mem_cons_self c cs)
          have hcs : run_starts_aux none cs = 0 := run_starts_aux_const none cs
            (fun x hx => h x (by rw [hl]; exact List.mem_cons_of_mem c hx))
          rw [hc, run_starts_cons, hcs]
          rfl
      rw [hrs, hnu]
      rfl
    | some y =>
      cases hl : icolors df i with
      | nil =>
        show (run_starts [] : Int) - (nunique [] : Int) = 0
        rfl
      | cons c cs =>
        have hc : c = some y := h c (by rw [hl]; exact List.mem_cons_self c cs)
        have hcs_all : ∀ x ∈ cs, x = some y :=
          fun x hx => h x (by rw [hl]; exact List.mem_cons_of_mem c hx)
        have h1 : run_starts_aux (some y) cs = 0 := run_starts_aux_const _ _ hcs_all
        have h2 : cs.filterMap id = List.replicate cs.length y :=
          filterMap_id_const_some y cs hcs_all
        have hrs : run_starts (c :: cs) = 1 := by
          rw [hc, run_starts_cons, h1]
          rfl
        have hnu : nunique (c :: cs) = 1 := by
          unfold nunique
          rw [hc]
          simp only [List.filterMap_cons, id, h2]
          unfold unique
          rw [show uniqueAux [] (y :: List.replicate cs.length y) =
              y :: uniqueAux [y] (List.replicate cs.length y) from by simp [uniqueAux]]
          rw [uniqueAux_replicate_mem y cs.length [y] (by simp)]
          rfl
        rw [hrs, hnu]
        rfl

/-- C9, witness for the amended theorem: individual 1 of `W9tbl` keeps color 1
throughout, so its cyclicity is 0 and agrees with the run-count formula. -/
theorem C9_amended_witness :
    cyclicity_of W9tbl 1 = 0 ∧ cyclicity_of W9tbl 1 = cyclicity_claim_of W9tbl 1 := by
  constructor
  · exact (C9_amended W9tbl 1).2.2 (some 1) (by with_unfolding_all decide)
  · exact (C9_amended W9tbl 1).2.1 (by with_unfolding_all decide)

/-- C10: the subgroup index is built from fully non-null rows only, while
peer_synchrony's guard checks just the two `group` fields; on `C10tbl`
individual 9's two adjacent rows both have non-null groups, the second row's
community color is null, the `(time, group, NaN)` key is absent, and the metric
fails with a missing-key error (modelled by `none`). -/
theorem C10_peer_synchrony_keyerror :
    (∀ r ∈ C10tbl, r.group.isSome) ∧
    (∃ r ∈ C10tbl, r.icolor = none) ∧
    peer_synchrony C10tbl (compute_subgroups C10tbl) = none := by
  with_unfolding_all decide

end CommDy
